import Mathlib

/-!
Verification of the index-based alert system's two numeric subsystems:
the spatiotemporal clustering engine (`02_spatiotemporal_clustering.py`)
and the multi-objective alert-index optimizer (`04_mo_optimization.py`).

Modelling conventions:
* numpy float arithmetic is modelled over `ℚ`, extended with the IEEE
  special values that can actually arise in the translated code
  (`RVal`: a finite number, `nan`, `+inf`, `-inf`).  Rounding error is
  ignored; the claims only involve comparisons with huge margins
  (2 versus 500 versus 99999).
* `geopy.distance.geodesic(...).km` is an external library function; it
  is modelled as an abstract parameter `geo` on coordinate pairs, with
  its mathematical properties (nonnegativity, symmetry) taken as
  hypotheses where a claim needs them.
* dates are modelled as integer day numbers, so `(d1 - d2).days` is
  plain integer subtraction.
* sklearn's `DBSCAN(metric=..).fit_predict` rejects any non-finite
  entry of a precomputed matrix (`check_array` raises `ValueError`),
  which the surrounding `try/except` of `cluster_records` turns into an
  aborted run; the model therefore returns `none` in that case.
  For finite matrices DBSCAN's semantics are: a point is core iff its
  closed `eps`-neighbourhood (entries `≤ eps`, which always includes the
  zero diagonal) has at least `min_samples` elements; core points are
  grouped into the connected components of the core-to-core
  `≤ eps` adjacency; a non-core point adjacent to a core point joins
  one such component; the rest are noise `-1`.  sklearn numbers the
  clusters in discovery order; the model numbers each cluster by the
  minimal index of its members.  This relabelling preserves everything
  the claims speak about: the noise value `-1`, nonnegativity of real
  labels, and which observations share a label.
-/

namespace AlertSystem

/-- Extended value: a finite rational, IEEE `nan`, `+inf` or `-inf`. -/
inductive RVal where
  | num (q : ℚ)
  | nan
  | pinf
  | ninf
deriving DecidableEq, Repr

/-- IEEE addition on extended values. -/
def RVal.add : RVal → RVal → RVal
  | .nan, _ => .nan
  | _, .nan => .nan
  | .pinf, .ninf => .nan
  | .ninf, .pinf => .nan
  | .pinf, _ => .pinf
  | _, .pinf => .pinf
  | .ninf, _ => .ninf
  | _, .ninf => .ninf
  | .num a, .num b => .num (a + b)

/-- IEEE `≤` on extended values; every comparison with `nan` is false. -/
def RVal.le : RVal → RVal → Bool
  | .nan, _ => false
  | _, .nan => false
  | .ninf, _ => true
  | _, .pinf => true
  | _, .ninf => false
  | .pinf, _ => false
  | .num a, .num b => decide (a ≤ b)

/-- Whether an extended value is a finite number. -/
def RVal.isNum : RVal → Bool
  | .num _ => true
  | _ => false

/-- The finite value of an extended value (junk `0` on specials). -/
def RVal.toQ : RVal → ℚ
  | .num q => q
  | _ => 0

/-- IEEE division for a rational numerator and denominator, as numpy
performs it inside the normalization loop (`x / max`). -/
def ndiv (a b : ℚ) : RVal :=
  if b = 0 then (if a = 0 then .nan else if 0 < a then .pinf else .ninf)
  else .num (a / b)

/-- One observation row: `r_lat`, `r_long` coordinates and the date
`r_data` as an integer day number. -/
structure Obs where
  r_lat : ℚ
  r_long : ℚ
  r_data : ℤ
deriving DecidableEq, Repr

/-- Source `within_distance_limit`: geodesic distance between the two
points, returned as-is when it is `≤ distance_limit`, else `-1`. -/
def within_distance_limit (geo : ℚ × ℚ → ℚ × ℚ → ℚ) (p1 p2 : Obs)
    (distance_limit : ℚ) : ℚ :=
  let distance := geo (p1.r_lat, p1.r_long) (p2.r_lat, p2.r_long)
  if distance ≤ distance_limit then distance else -1

/-- Source `within_time_limit`: absolute day difference, returned (as a
float, hence `ℚ` here) when it is `≤ time_limit`, else `-1`. -/
def within_time_limit (d1 d2 : Obs) (time_limit : ℤ) : ℚ :=
  let delta := |d1.r_data - d2.r_data|
  if delta ≤ time_limit then (delta : ℚ) else -1

/-- Spatial half of source `calculate_dist_time`: the loops fill the
upper triangle `j > i` with `within_distance_limit` and mirror it; the
diagonal keeps the `np.zeros` initial value `0`. -/
def matrix_dist {n : ℕ} (geo : ℚ × ℚ → ℚ × ℚ → ℚ) (X : Fin n → Obs)
    (distance_limit : ℚ) : Fin n → Fin n → ℚ := fun i j =>
  if i = j then 0
  else if i < j then within_distance_limit geo (X i) (X j) distance_limit
  else within_distance_limit geo (X j) (X i) distance_limit

/-- Temporal half of source `calculate_dist_time`, same fill pattern. -/
def matrix_time {n : ℕ} (X : Fin n → Obs) (time_limit : ℤ) :
    Fin n → Fin n → ℚ := fun i j =>
  if i = j then 0
  else if i < j then within_time_limit (X i) (X j) time_limit
  else within_time_limit (X j) (X i) time_limit

/-- The index pairs selected by the boolean mask `matrix >= 0`. -/
def inRangeEntries {n : ℕ} (M : Fin n → Fin n → ℚ) :
    Finset (Fin n × Fin n) :=
  Finset.univ.filter (fun p => 0 ≤ M p.1 p.2)

/-- Source `np.max(matrix[matrix >= 0])`: the maximum of the entries
that are `≥ 0`; `np.max` raises `ValueError` on an empty selection,
modelled by `none` (for `n ≥ 1` the zero diagonal is always selected,
so the selection is only empty when `n = 0`). -/
def max_in_range {n : ℕ} (M : Fin n → Fin n → ℚ) : Option ℚ :=
  if h : (inRangeEntries M).Nonempty then
    some ((inRangeEntries M).sup' h (fun p => M p.1 p.2))
  else none

/-- The in-range maximum with junk default `0` (only used through
`max_in_range` being `some`). -/
def maxD {n : ℕ} (M : Fin n → Fin n → ℚ) : ℚ := (max_in_range M).getD 0

/-- One entry of the normalization loop body: sentinel `99999` for a
negative raw value, otherwise the numpy division by the axis maximum. -/
def normEntry (x mx : ℚ) : RVal :=
  if x < 0 then .num 99999 else ndiv x mx

/-- Normalized matrix of one axis in source
`calculate_normalized_matrices`: upper triangle `j > i` gets
`normEntry`, is mirrored, and the diagonal keeps the `np.zeros` value
`0`. -/
def normMatrix {n : ℕ} (M : Fin n → Fin n → ℚ) (mx : ℚ) :
    Fin n → Fin n → RVal := fun i j =>
  if i = j then .num 0
  else if i < j then normEntry (M i j) mx
  else normEntry (M j i) mx

/-- Source `calculate_normalized_matrices`: computes both axis maxima
(`none` propagates the `ValueError` of an empty selection) and then both
normalized matrices. -/
def calculate_normalized_matrices {n : ℕ} (Md Mt : Fin n → Fin n → ℚ) :
    Option ((Fin n → Fin n → RVal) × (Fin n → Fin n → RVal)) :=
  match max_in_range Md, max_in_range Mt with
  | some maxd, some maxt => some (normMatrix Md maxd, normMatrix Mt maxt)
  | _, _ => none

/-- The combined matrix of `cluster_records`:
`np.add(norm_distance_matrix, norm_time_matrix)` on the matrices built
from `calculate_dist_time` and `calculate_normalized_matrices`. -/
def total_distance {n : ℕ} (geo : ℚ × ℚ → ℚ × ℚ → ℚ) (X : Fin n → Obs)
    (time_limit : ℤ) (distance_limit : ℚ) :
    Option (Fin n → Fin n → RVal) :=
  match calculate_normalized_matrices (matrix_dist geo X distance_limit)
      (matrix_time X time_limit) with
  | some p => some (fun i j => (p.1 i j).add (p.2 i j))
  | none => none

/-- One expansion step of density clustering: keep `s` and add every
point adjacent to some member of `s`. -/
def stepR {n : ℕ} (adj : Fin n → Fin n → Bool) (s : Finset (Fin n)) :
    Finset (Fin n) :=
  s ∪ Finset.univ.filter (fun j => (s.filter (fun i => adj i j)).Nonempty)

/-- All points reachable from `i` by an adjacency chain: `n` expansion
steps saturate on a ground set of `n` points. -/
def reachSet {n : ℕ} (adj : Fin n → Fin n → Bool) (i : Fin n) :
    Finset (Fin n) :=
  (stepR adj)^[n] {i}

lemma subset_stepR {n : ℕ} (adj : Fin n → Fin n → Bool)
    (s : Finset (Fin n)) : s ⊆ stepR adj s :=
  Finset.subset_union_left

lemma stepR_mono {n : ℕ} (adj : Fin n → Fin n → Bool)
    {s t : Finset (Fin n)} (hst : s ⊆ t) : stepR adj s ⊆ stepR adj t := by
  intro x hx
  rcases Finset.mem_union.1 hx with h | h
  · exact Finset.mem_union_left _ (hst h)
  · refine Finset.mem_union_right _ ?_
    simp only [Finset.mem_filter, Finset.mem_univ, true_and] at h ⊢
    obtain ⟨a, ha⟩ := h
    obtain ⟨ha1, ha2⟩ := Finset.mem_filter.1 ha
    exact ⟨a, Finset.mem_filter.2 ⟨hst ha1, ha2⟩⟩

lemma iterate_stepR_le {n : ℕ} (adj : Fin n → Fin n → Bool)
    (s : Finset (Fin n)) {k m : ℕ} (hkm : k ≤ m) :
    (stepR adj)^[k] s ⊆ (stepR adj)^[m] s := by
  induction m, hkm using Nat.le_induction with
  | base => exact subset_rfl
  | succ m _ ih =>
    rw [Function.iterate_succ_apply']
    exact ih.trans (subset_stepR adj _)

lemma mem_reachSet_self {n : ℕ} (adj : Fin n → Fin n → Bool)
    (i : Fin n) : i ∈ reachSet adj i := by
  have h0 : (stepR adj)^[0] {i} ⊆ (stepR adj)^[n] {i} :=
    iterate_stepR_le adj {i} (Nat.zero_le n)
  exact h0 (by simp)

lemma iterate_fix_stable {α : Type _} (F : α → α) (s : α) {k : ℕ}
    (h : F (F^[k] s) = F^[k] s) :
    ∀ m, k ≤ m → F^[m] s = F^[k] s := by
  intro m hm
  induction m, hm using Nat.le_induction with
  | base => rfl
  | succ m hkm ih => rw [Function.iterate_succ_apply', ih, h]

lemma exists_iterate_fix {n : ℕ} (adj : Fin n → Fin n → Bool)
    (i : Fin n) :
    ∃ k, k ≤ n ∧ (stepR adj)^[k + 1] {i} = (stepR adj)^[k] {i} := by
  by_contra hcon
  push_neg at hcon
  have hs : ∀ k, k ≤ n + 1 → k + 1 ≤ (((stepR adj)^[k] {i}) : Finset (Fin n)).card := by
    intro k
    induction k with
    | zero => intro _; simp
    | succ m ih =>
      intro hm
      have hm' : m ≤ n := by omega
      have hsub : (stepR adj)^[m] {i} ⊆ (stepR adj)^[m + 1] {i} :=
        iterate_stepR_le adj {i} (Nat.le_succ m)
      have hne : (stepR adj)^[m + 1] {i} ≠ (stepR adj)^[m] {i} :=
        hcon m hm'
      have hcard : (((stepR adj)^[m] {i}) : Finset (Fin n)).card <
          (((stepR adj)^[m + 1] {i}) : Finset (Fin n)).card :=
        Finset.card_lt_card (hsub.ssubset_of_ne (Ne.symm hne))
      have := ih (by omega)
      omega
  have h1 := hs (n + 1) le_rfl
  have h2 : (((stepR adj)^[n + 1] {i}) : Finset (Fin n)).card ≤ n := by
    simpa using Finset.card_le_univ ((stepR adj)^[n + 1] {i})
  omega

lemma stepR_reachSet {n : ℕ} (adj : Fin n → Fin n → Bool) (i : Fin n) :
    stepR adj (reachSet adj i) = reachSet adj i := by
  obtain ⟨k, hk, hfix⟩ := exists_iterate_fix adj i
  have hfix' : stepR adj ((stepR adj)^[k] {i}) = (stepR adj)^[k] {i} := by
    rw [← Function.iterate_succ_apply' (stepR adj) k {i}]; exact hfix
  have hn := iterate_fix_stable (stepR adj) {i} hfix' n hk
  unfold reachSet
  rw [hn, hfix']

lemma reachSet_closed {n : ℕ} {adj : Fin n → Fin n → Bool}
    {i j k : Fin n} (hj : j ∈ reachSet adj i) (hadj : adj j k = true) :
    k ∈ reachSet adj i := by
  rw [← stepR_reachSet adj i]
  refine Finset.mem_union_right _ ?_
  simp only [Finset.mem_filter, Finset.mem_univ, true_and]
  exact ⟨j, Finset.mem_filter.2 ⟨hj, hadj⟩⟩

lemma iterate_subset_reachSet {n : ℕ} {adj : Fin n → Fin n → Bool}
    {i : Fin n} {s : Finset (Fin n)} (hs : s ⊆ reachSet adj i) :
    ∀ m, (stepR adj)^[m] s ⊆ reachSet adj i := by
  intro m
  induction m with
  | zero => simpa using hs
  | succ p ih =>
    rw [Function.iterate_succ_apply']
    exact (stepR_mono adj ih).trans (le_of_eq (stepR_reachSet adj i))

lemma reachSet_subset_of_mem {n : ℕ} {adj : Fin n → Fin n → Bool}
    {i j : Fin n} (hj : j ∈ reachSet adj i) :
    reachSet adj j ⊆ reachSet adj i :=
  iterate_subset_reachSet (by simpa using hj) n

lemma mem_reachSet_symm {n : ℕ} {adj : Fin n → Fin n → Bool}
    (hsymm : ∀ a b, adj a b = adj b a) {i j : Fin n}
    (hj : j ∈ reachSet adj i) : i ∈ reachSet adj j := by
  suffices haux : ∀ m, ∀ x, x ∈ (stepR adj)^[m] {i} → i ∈ reachSet adj x by
    exact haux n j hj
  intro m
  induction m with
  | zero =>
    intro x hx
    simp only [Function.iterate_zero, id_eq, Finset.mem_singleton] at hx
    subst hx
    exact mem_reachSet_self adj x
  | succ p ih =>
    intro x hx
    rw [Function.iterate_succ_apply'] at hx
    rcases Finset.mem_union.1 hx with h | h
    · exact ih x h
    · simp only [Finset.mem_filter, Finset.mem_univ, true_and] at h
      obtain ⟨a, ha⟩ := h
      obtain ⟨ha1, ha2⟩ := Finset.mem_filter.1 ha
      have hia : i ∈ reachSet adj a := ih a ha1
      have hxa : adj x a = true := by rw [hsymm]; exact ha2
      have hax : a ∈ reachSet adj x :=
        reachSet_closed (mem_reachSet_self adj x) hxa
      exact reachSet_subset_of_mem hax hia

lemma reachSet_eq_of_mem {n : ℕ} {adj : Fin n → Fin n → Bool}
    (hsymm : ∀ a b, adj a b = adj b a) {i j : Fin n}
    (hj : j ∈ reachSet adj i) : reachSet adj i = reachSet adj j :=
  subset_antisymm
    (reachSet_subset_of_mem (mem_reachSet_symm hsymm hj))
    (reachSet_subset_of_mem hj)

lemma reachSet_singleton {n : ℕ} {adj : Fin n → Fin n → Bool}
    {i : Fin n} (hiso : ∀ j, j ≠ i → adj i j = false) :
    reachSet adj i = {i} := by
  have hstep : stepR adj ({i} : Finset (Fin n)) = {i} := by
    apply subset_antisymm
    · intro x hx
      rcases Finset.mem_union.1 hx with h | h
      · exact h
      · simp only [Finset.mem_filter, Finset.mem_univ, true_and] at h
        obtain ⟨a, ha⟩ := h
        obtain ⟨ha1, ha2⟩ := Finset.mem_filter.1 ha
        have hai : a = i := Finset.mem_singleton.1 ha1
        subst hai
        by_cases hxa : x = a
        · simp [hxa]
        · rw [hiso x hxa] at ha2; cases ha2
    · exact subset_stepR adj _
  have h0 : stepR adj ((stepR adj)^[0] ({i} : Finset (Fin n))) =
      (stepR adj)^[0] ({i} : Finset (Fin n)) := by simpa using hstep
  have := iterate_fix_stable (stepR adj) ({i} : Finset (Fin n)) h0 n
    (Nat.zero_le n)
  unfold reachSet
  simpa using this

lemma min'_congr_of_eq {α : Type _} [LinearOrder α] {s t : Finset α}
    (h : s = t) (hs : s.Nonempty) (ht : t.Nonempty) :
    s.min' hs = t.min' ht := by subst h; rfl

/-- The closed `eps`-neighbourhood of point `i` in a precomputed
distance matrix, as sklearn's `radius_neighbors` computes it. -/
def dneighbors {n : ℕ} (d : Fin n → Fin n → ℚ) (eps : ℚ) (i : Fin n) :
    Finset (Fin n) :=
  Finset.univ.filter (fun j => d i j ≤ eps)

/-- DBSCAN core predicate: at least `minPts` points (the point itself
included) in the closed `eps`-neighbourhood. -/
def isCore {n : ℕ} (d : Fin n → Fin n → ℚ) (eps : ℚ) (minPts : ℕ)
    (i : Fin n) : Bool :=
  decide (minPts ≤ (dneighbors d eps i).card)

/-- Core-to-core adjacency: both endpoints core and within `eps`. -/
def coreAdj {n : ℕ} (d : Fin n → Fin n → ℚ) (eps : ℚ) (minPts : ℕ)
    (i j : Fin n) : Bool :=
  isCore d eps minPts i && isCore d eps minPts j && decide (d i j ≤ eps)

/-- Canonical cluster number of a core point: the minimal index in its
connected component of the core adjacency graph. -/
def clusterRep {n : ℕ} (d : Fin n → Fin n → ℚ) (eps : ℚ) (minPts : ℕ)
    (i : Fin n) : ℕ :=
  ((reachSet (coreAdj d eps minPts) i).min'
    ⟨i, mem_reachSet_self (coreAdj d eps minPts) i⟩).val

/-- DBSCAN labels over a precomputed distance matrix (canonical
numbering, see the module docstring): a core point gets its component's
number, a border point the number of the component of a core neighbour,
anything else the noise label `-1`. -/
def dbscan_labels {n : ℕ} (d : Fin n → Fin n → ℚ) (eps : ℚ)
    (minPts : ℕ) (i : Fin n) : ℤ :=
  if isCore d eps minPts i then (clusterRep d eps minPts i : ℤ)
  else
    if h : (Finset.univ.filter
        (fun j => isCore d eps minPts j = true ∧ d i j ≤ eps)).Nonempty
    then (clusterRep d eps minPts ((Finset.univ.filter
        (fun j => isCore d eps minPts j = true ∧ d i j ≤ eps)).min' h) : ℤ)
    else -1

/-- Extract a finite matrix from an extended-value matrix; `none` when
some entry is `nan` or infinite (sklearn's input validation rejects the
matrix in that case and `cluster_records` aborts through its
`except`). -/
def matToQ {n : ℕ} (M : Fin n → Fin n → RVal) :
    Option (Fin n → Fin n → ℚ) :=
  if ∀ i j, (M i j).isNum = true then some (fun i j => (M i j).toQ)
  else none

/-- Source `cluster_records` (the computational core, file I/O elided):
build the raw and normalized matrices, sum them, and run the two DBSCAN
passes `eps=500, min_samples=1` (`Cluster1`) and `eps=500,
min_samples=2` (`Cluster2`).  `none` models the aborted run (printed
error, no output file): either `np.max` on an empty selection or a
non-finite combined matrix rejected by DBSCAN. -/
def cluster_records_model {n : ℕ} (geo : ℚ × ℚ → ℚ × ℚ → ℚ)
    (X : Fin n → Obs) (time_limit : ℤ) (distance_limit : ℚ) :
    Option ((Fin n → ℤ) × (Fin n → ℤ)) :=
  match total_distance geo X time_limit distance_limit with
  | none => none
  | some T =>
    match matToQ T with
    | none => none
    | some Tq =>
      some (fun i => dbscan_labels Tq 500 1 i,
        fun i => dbscan_labels Tq 500 2 i)

/-- The spec's "directly reachable": within both configured limits. -/
def directly_reachable {n : ℕ} (geo : ℚ × ℚ → ℚ × ℚ → ℚ)
    (X : Fin n → Obs) (time_limit : ℤ) (distance_limit : ℚ)
    (i j : Fin n) : Prop :=
  geo ((X i).r_lat, (X i).r_long) ((X j).r_lat, (X j).r_long) ≤ distance_limit ∧
  |(X i).r_data - (X j).r_data| ≤ time_limit

instance {n : ℕ} (geo : ℚ × ℚ → ℚ × ℚ → ℚ) (X : Fin n → Obs)
    (tl : ℤ) (dl : ℚ) (i j : Fin n) :
    Decidable (directly_reachable geo X tl dl i j) := by
  unfold directly_reachable; infer_instance

lemma matrix_dist_symm {n : ℕ} (geo : ℚ × ℚ → ℚ × ℚ → ℚ)
    (X : Fin n → Obs) (dl : ℚ) (i j : Fin n) :
    matrix_dist geo X dl i j = matrix_dist geo X dl j i := by
  unfold matrix_dist
  rcases lt_trichotomy i j with h | h | h
  · rw [if_neg (ne_of_lt h), if_pos h, if_neg (ne_of_gt h),
      if_neg (asymm h)]
  · subst h; rfl
  · rw [if_neg (ne_of_gt h), if_neg (asymm h), if_neg (ne_of_lt h),
      if_pos h]

lemma matrix_time_symm {n : ℕ} (X : Fin n → Obs) (tl : ℤ) (i j : Fin n) :
    matrix_time X tl i j = matrix_time X tl j i := by
  unfold matrix_time
  rcases lt_trichotomy i j with h | h | h
  · rw [if_neg (ne_of_lt h), if_pos h, if_neg (ne_of_gt h),
      if_neg (asymm h)]
  · subst h; rfl
  · rw [if_neg (ne_of_gt h), if_neg (asymm h), if_neg (ne_of_lt h),
      if_pos h]

lemma matrix_dist_diag {n : ℕ} (geo : ℚ × ℚ → ℚ × ℚ → ℚ)
    (X : Fin n → Obs) (dl : ℚ) (i : Fin n) :
    matrix_dist geo X dl i i = 0 := by
  unfold matrix_dist; rw [if_pos rfl]

lemma matrix_time_diag {n : ℕ} (X : Fin n → Obs) (tl : ℤ) (i : Fin n) :
    matrix_time X tl i i = 0 := by
  unfold matrix_time; rw [if_pos rfl]

lemma matrix_dist_apply_ne {n : ℕ} (geo : ℚ × ℚ → ℚ × ℚ → ℚ)
    (X : Fin n → Obs) (dl : ℚ)
    (hgs : ∀ p q, geo p q = geo q p) {i j : Fin n} (hij : i ≠ j) :
    matrix_dist geo X dl i j = within_distance_limit geo (X i) (X j) dl := by
  unfold matrix_dist
  rcases lt_trichotomy i j with h | h | h
  · rw [if_neg hij, if_pos h]
  · exact absurd h hij
  · rw [if_neg hij, if_neg (asymm h)]
    unfold within_distance_limit
    rw [hgs ((X j).r_lat, (X j).r_long) ((X i).r_lat, (X i).r_long)]

lemma matrix_time_apply_ne {n : ℕ} (X : Fin n → Obs) (tl : ℤ)
    {i j : Fin n} (hij : i ≠ j) :
    matrix_time X tl i j = within_time_limit (X i) (X j) tl := by
  unfold matrix_time
  rcases lt_trichotomy i j with h | h | h
  · rw [if_neg hij, if_pos h]
  · exact absurd h hij
  · rw [if_neg hij, if_neg (asymm h)]
    unfold within_time_limit
    rw [abs_sub_comm]

lemma normMatrix_symm {n : ℕ} (M : Fin n → Fin n → ℚ) (mx : ℚ)
    (i j : Fin n) : normMatrix M mx i j = normMatrix M mx j i := by
  unfold normMatrix
  rcases lt_trichotomy i j with h | h | h
  · rw [if_neg (ne_of_lt h), if_pos h, if_neg (ne_of_gt h),
      if_neg (asymm h)]
  · subst h; rfl
  · rw [if_neg (ne_of_gt h), if_neg (asymm h), if_neg (ne_of_lt h),
      if_pos h]

lemma normMatrix_diag {n : ℕ} (M : Fin n → Fin n → ℚ) (mx : ℚ)
    (i : Fin n) : normMatrix M mx i i = RVal.num 0 := by
  unfold normMatrix; rw [if_pos rfl]

lemma normMatrix_apply_ne {n : ℕ} {M : Fin n → Fin n → ℚ} (mx : ℚ)
    (hM : ∀ i j, M i j = M j i) {i j : Fin n} (hij : i ≠ j) :
    normMatrix M mx i j = normEntry (M i j) mx := by
  unfold normMatrix
  rcases lt_trichotomy i j with h | h | h
  · rw [if_neg hij, if_pos h]
  · exact absurd h hij
  · rw [if_neg hij, if_neg (asymm h), hM j i]

lemma inRange_nonempty {n : ℕ} {M : Fin n → Fin n → ℚ} (i : Fin n)
    (h : 0 ≤ M i i) : (inRangeEntries M).Nonempty :=
  ⟨(i, i), by simpa [inRangeEntries] using h⟩

lemma maxD_eq {n : ℕ} {M : Fin n → Fin n → ℚ}
    (h : (inRangeEntries M).Nonempty) :
    maxD M = (inRangeEntries M).sup' h (fun p => M p.1 p.2) := by
  unfold maxD max_in_range
  rw [dif_pos h]
  rfl

lemma max_in_range_eq {n : ℕ} {M : Fin n → Fin n → ℚ}
    (h : (inRangeEntries M).Nonempty) :
    max_in_range M = some (maxD M) := by
  rw [maxD_eq h]
  unfold max_in_range
  rw [dif_pos h]

lemma le_maxD {n : ℕ} {M : Fin n → Fin n → ℚ} {i j : Fin n}
    (h : 0 ≤ M i j) : M i j ≤ maxD M := by
  have hmem : (i, j) ∈ inRangeEntries M := by
    unfold inRangeEntries
    rw [Finset.mem_filter]
    exact ⟨Finset.mem_univ _, h⟩
  have hne : (inRangeEntries M).Nonempty := ⟨(i, j), hmem⟩
  rw [maxD_eq hne]
  apply Finset.le_sup' (fun p : Fin n × Fin n => M p.1 p.2) hmem

lemma maxD_nonneg {n : ℕ} {M : Fin n → Fin n → ℚ}
    (h : (inRangeEntries M).Nonempty) : 0 ≤ maxD M := by
  rw [maxD_eq h]
  obtain ⟨b, hb, hval⟩ :=
    Finset.exists_mem_eq_sup' h (fun p => M p.1 p.2)
  have hb0 : 0 ≤ M b.1 b.2 := by
    simpa [inRangeEntries] using hb
  rw [hval]
  exact hb0

lemma normEntry_num {x mx : ℚ} (hmx : mx ≠ 0) :
    normEntry x mx = RVal.num (if x < 0 then 99999 else x / mx) := by
  unfold normEntry ndiv
  by_cases hx : x < 0
  · rw [if_pos hx, if_pos hx]
  · rw [if_neg hx, if_neg hx, if_neg hmx]

lemma normEntry_neg {x mx : ℚ} (hx : x < 0) :
    normEntry x mx = RVal.num 99999 := by
  unfold normEntry
  rw [if_pos hx]

lemma normEntry_val_nonneg {x mx : ℚ} (hmx : 0 < mx) :
    0 ≤ if x < 0 then (99999 : ℚ) else x / mx := by
  by_cases hx : x < 0
  · rw [if_pos hx]; norm_num
  · rw [if_neg hx]
    exact div_nonneg (not_lt.1 hx) hmx.le

lemma RVal.add_num (a b : ℚ) :
    (RVal.num a).add (RVal.num b) = RVal.num (a + b) := rfl

lemma RVal.le_num {a b : ℚ} : RVal.le (RVal.num a) (RVal.num b) = true ↔ a ≤ b := by
  simp [RVal.le]

lemma RVal.le_num_false {a b : ℚ} :
    RVal.le (RVal.num a) (RVal.num b) = false ↔ b < a := by
  constructor
  · intro h
    by_contra hc
    rw [RVal.le, decide_eq_false_iff_not] at h
    exact h (not_lt.1 hc)
  · intro h
    rw [RVal.le, decide_eq_false_iff_not]
    exact not_le.2 h

lemma isNum_add {a b : RVal} (h : (a.add b).isNum = true) :
    a.isNum = true ∧ b.isNum = true := by
  cases a <;> cases b <;> simp_all [RVal.add, RVal.isNum]

lemma ndiv_isNum {a b : ℚ} (h : (ndiv a b).isNum = true) : b ≠ 0 := by
  intro hb
  subst hb
  unfold ndiv at h
  rw [if_pos rfl] at h
  by_cases ha : a = 0
  · rw [if_pos ha] at h; cases h
  · rw [if_neg ha] at h
    by_cases ha2 : 0 < a
    · rw [if_pos ha2] at h; cases h
    · rw [if_neg ha2] at h; cases h

lemma total_distance_eq {n : ℕ} (geo : ℚ × ℚ → ℚ × ℚ → ℚ)
    (X : Fin n → Obs) (tl : ℤ) (dl : ℚ) (i0 : Fin n) :
    total_distance geo X tl dl = some (fun i j =>
      (normMatrix (matrix_dist geo X dl) (maxD (matrix_dist geo X dl)) i j).add
      (normMatrix (matrix_time X tl) (maxD (matrix_time X tl)) i j)) := by
  have h1 : (inRangeEntries (matrix_dist geo X dl)).Nonempty :=
    inRange_nonempty i0 (by rw [matrix_dist_diag])
  have h2 : (inRangeEntries (matrix_time X tl)).Nonempty :=
    inRange_nonempty i0 (by rw [matrix_time_diag])
  unfold total_distance calculate_normalized_matrices
  rw [max_in_range_eq h1, max_in_range_eq h2]

lemma matToQ_eq_some {n : ℕ} {M : Fin n → Fin n → RVal}
    (h : ∀ i j, (M i j).isNum = true) :
    matToQ M = some (fun i j => (M i j).toQ) := by
  unfold matToQ
  rw [if_pos h]

lemma isCore_one {n : ℕ} {d : Fin n → Fin n → ℚ} {eps : ℚ} {i : Fin n}
    (h : d i i ≤ eps) : isCore d eps 1 i = true := by
  unfold isCore
  apply decide_eq_true
  refine Finset.card_pos.2 ⟨i, ?_⟩
  simpa [dneighbors] using h

lemma coreAdj_symm {n : ℕ} {d : Fin n → Fin n → ℚ} {eps : ℚ}
    {m : ℕ} (hd : ∀ i j, d i j = d j i) (i j : Fin n) :
    coreAdj d eps m i j = coreAdj d eps m j i := by
  unfold coreAdj
  rw [hd i j, Bool.and_comm (isCore d eps m i) (isCore d eps m j)]

lemma coreAdj_one_true {n : ℕ} {d : Fin n → Fin n → ℚ} {eps : ℚ}
    {i j : Fin n} (hi : d i i ≤ eps) (hj : d j j ≤ eps)
    (hij : d i j ≤ eps) : coreAdj d eps 1 i j = true := by
  unfold coreAdj
  rw [isCore_one hi, isCore_one hj, decide_eq_true hij]
  rfl

lemma clusterRep_eq_of_mem {n : ℕ} {d : Fin n → Fin n → ℚ} {eps : ℚ}
    {m : ℕ} (hd : ∀ i j, d i j = d j i) {i j : Fin n}
    (hj : j ∈ reachSet (coreAdj d eps m) i) :
    clusterRep d eps m i = clusterRep d eps m j := by
  unfold clusterRep
  have heq := reachSet_eq_of_mem (coreAdj_symm hd) hj
  congr 1
  exact min'_congr_of_eq heq _ _

lemma dbscan_labels_core {n : ℕ} {d : Fin n → Fin n → ℚ} {eps : ℚ}
    {m : ℕ} {i : Fin n} (h : isCore d eps m i = true) :
    dbscan_labels d eps m i = (clusterRep d eps m i : ℤ) := by
  unfold dbscan_labels
  rw [h]
  rfl

lemma dbscan_labels_noise {n : ℕ} {d : Fin n → Fin n → ℚ} {eps : ℚ}
    {m : ℕ} {i : Fin n} (h : isCore d eps m i = false)
    (hno : ∀ j, ¬(isCore d eps m j = true ∧ d i j ≤ eps)) :
    dbscan_labels d eps m i = -1 := by
  unfold dbscan_labels
  rw [h]
  have hempty : ¬(Finset.univ.filter
      (fun j => isCore d eps m j = true ∧ d i j ≤ eps)).Nonempty := by
    rintro ⟨j, hjmem⟩
    rw [Finset.mem_filter] at hjmem
    exact hno j hjmem.2
  rw [if_neg Bool.false_ne_true, dif_neg hempty]

lemma clusterRep_isolated {n : ℕ} {d : Fin n → Fin n → ℚ} {eps : ℚ}
    {m : ℕ} {i : Fin n} (hiso : ∀ j, j ≠ i → coreAdj d eps m i j = false) :
    clusterRep d eps m i = i.val := by
  unfold clusterRep
  have h := reachSet_singleton hiso
  rw [min'_congr_of_eq h _ ⟨i, Finset.mem_singleton_self i⟩,
    Finset.min'_singleton]

lemma matrix_dist_out {n : ℕ} {geo : ℚ × ℚ → ℚ × ℚ → ℚ}
    {X : Fin n → Obs} {dl : ℚ} (hgs : ∀ p q, geo p q = geo q p)
    {i j : Fin n} (hij : i ≠ j)
    (hout : dl < geo ((X i).r_lat, (X i).r_long) ((X j).r_lat, (X j).r_long)) :
    matrix_dist geo X dl i j = -1 := by
  rw [matrix_dist_apply_ne geo X dl hgs hij]
  unfold within_distance_limit
  rw [if_neg (not_le.2 hout)]

lemma matrix_dist_in {n : ℕ} {geo : ℚ × ℚ → ℚ × ℚ → ℚ}
    {X : Fin n → Obs} {dl : ℚ} (hgs : ∀ p q, geo p q = geo q p)
    {i j : Fin n} (hij : i ≠ j)
    (hin : geo ((X i).r_lat, (X i).r_long) ((X j).r_lat, (X j).r_long) ≤ dl) :
    matrix_dist geo X dl i j =
      geo ((X i).r_lat, (X i).r_long) ((X j).r_lat, (X j).r_long) := by
  rw [matrix_dist_apply_ne geo X dl hgs hij]
  unfold within_distance_limit
  rw [if_pos hin]

lemma matrix_time_out {n : ℕ} {X : Fin n → Obs} {tl : ℤ}
    {i j : Fin n} (hij : i ≠ j)
    (hout : tl < |(X i).r_data - (X j).r_data|) :
    matrix_time X tl i j = -1 := by
  rw [matrix_time_apply_ne X tl hij]
  unfold within_time_limit
  rw [if_neg (not_le.2 hout)]

lemma matrix_time_in {n : ℕ} {X : Fin n → Obs} {tl : ℤ}
    {i j : Fin n} (hij : i ≠ j)
    (hin : |(X i).r_data - (X j).r_data| ≤ tl) :
    matrix_time X tl i j = ((|(X i).r_data - (X j).r_data| : ℤ) : ℚ) := by
  rw [matrix_time_apply_ne X tl hij]
  unfold within_time_limit
  rw [if_pos hin]

/-- The combined matrix read back as rationals (junk where an entry is
a special value; only used where all entries are finite). -/
def combinedQ {n : ℕ} (geo : ℚ × ℚ → ℚ × ℚ → ℚ) (X : Fin n → Obs)
    (tl : ℤ) (dl : ℚ) : Fin n → Fin n → ℚ := fun i j =>
  ((normMatrix (matrix_dist geo X dl) (maxD (matrix_dist geo X dl)) i j).add
    (normMatrix (matrix_time X tl) (maxD (matrix_time X tl)) i j)).toQ

lemma totalEntry_ne {n : ℕ} {Md Mt : Fin n → Fin n → ℚ}
    (hsd : ∀ i j, Md i j = Md j i) (hst : ∀ i j, Mt i j = Mt j i)
    (hmaxd : maxD Md ≠ 0) (hmaxt : maxD Mt ≠ 0) {i j : Fin n}
    (hij : i ≠ j) :
    (normMatrix Md (maxD Md) i j).add (normMatrix Mt (maxD Mt) i j) =
      RVal.num ((if Md i j < 0 then 99999 else Md i j / maxD Md) +
        (if Mt i j < 0 then 99999 else Mt i j / maxD Mt)) := by
  rw [normMatrix_apply_ne _ hsd hij, normMatrix_apply_ne _ hst hij,
    normEntry_num hmaxd, normEntry_num hmaxt, RVal.add_num]

lemma totalEntry_isNum {n : ℕ} {Md Mt : Fin n → Fin n → ℚ}
    (hsd : ∀ i j, Md i j = Md j i) (hst : ∀ i j, Mt i j = Mt j i)
    (hmaxd : maxD Md ≠ 0) (hmaxt : maxD Mt ≠ 0) (i j : Fin n) :
    ((normMatrix Md (maxD Md) i j).add
      (normMatrix Mt (maxD Mt) i j)).isNum = true := by
  by_cases hij : i = j
  · subst hij
    rw [normMatrix_diag, normMatrix_diag, RVal.add_num]
    rfl
  · rw [totalEntry_ne hsd hst hmaxd hmaxt hij]
    rfl

lemma combinedQ_diag {n : ℕ} (geo : ℚ × ℚ → ℚ × ℚ → ℚ)
    (X : Fin n → Obs) (tl : ℤ) (dl : ℚ) (i : Fin n) :
    combinedQ geo X tl dl i i = 0 := by
  unfold combinedQ
  rw [normMatrix_diag, normMatrix_diag, RVal.add_num]
  norm_num [RVal.toQ]

lemma combinedQ_symm {n : ℕ} (geo : ℚ × ℚ → ℚ × ℚ → ℚ)
    (X : Fin n → Obs) (tl : ℤ) (dl : ℚ) (i j : Fin n) :
    combinedQ geo X tl dl i j = combinedQ geo X tl dl j i := by
  unfold combinedQ
  rw [normMatrix_symm (matrix_dist geo X dl), normMatrix_symm (matrix_time X tl)]

lemma combinedQ_ne {n : ℕ} {geo : ℚ × ℚ → ℚ × ℚ → ℚ}
    {X : Fin n → Obs} {tl : ℤ} {dl : ℚ}
    (hmaxd : maxD (matrix_dist geo X dl) ≠ 0)
    (hmaxt : maxD (matrix_time X tl) ≠ 0) {i j : Fin n} (hij : i ≠ j) :
    combinedQ geo X tl dl i j =
      (if matrix_dist geo X dl i j < 0 then 99999
        else matrix_dist geo X dl i j / maxD (matrix_dist geo X dl)) +
      (if matrix_time X tl i j < 0 then 99999
        else matrix_time X tl i j / maxD (matrix_time X tl)) := by
  unfold combinedQ
  rw [totalEntry_ne (matrix_dist_symm geo X dl) (matrix_time_symm X tl)
    hmaxd hmaxt hij]
  rfl

lemma combinedQ_out_ge {n : ℕ} {geo : ℚ × ℚ → ℚ × ℚ → ℚ}
    {X : Fin n → Obs} {tl : ℤ} {dl : ℚ}
    (hmaxd : 0 < maxD (matrix_dist geo X dl))
    (hmaxt : 0 < maxD (matrix_time X tl)) {i j : Fin n} (hij : i ≠ j)
    (hout : matrix_dist geo X dl i j < 0 ∨ matrix_time X tl i j < 0) :
    99999 ≤ combinedQ geo X tl dl i j := by
  rw [combinedQ_ne (ne_of_gt hmaxd) (ne_of_gt hmaxt) hij]
  have h1 := @normEntry_val_nonneg (matrix_dist geo X dl i j) _ hmaxd
  have h2 := @normEntry_val_nonneg (matrix_time X tl i j) _ hmaxt
  rcases hout with h | h
  · rw [if_pos h]; linarith
  · rw [if_pos h]; linarith

lemma combinedQ_in_le {n : ℕ} {geo : ℚ × ℚ → ℚ × ℚ → ℚ}
    {X : Fin n → Obs} {tl : ℤ} {dl : ℚ}
    (hmaxd : 0 < maxD (matrix_dist geo X dl))
    (hmaxt : 0 < maxD (matrix_time X tl)) {i j : Fin n} (hij : i ≠ j)
    (h0d : 0 ≤ matrix_dist geo X dl i j)
    (h0t : 0 ≤ matrix_time X tl i j) :
    combinedQ geo X tl dl i j ≤ 2 := by
  rw [combinedQ_ne (ne_of_gt hmaxd) (ne_of_gt hmaxt) hij]
  rw [if_neg (not_lt.2 h0d), if_neg (not_lt.2 h0t)]
  have hd1 : matrix_dist geo X dl i j / maxD (matrix_dist geo X dl) ≤ 1 :=
    (div_le_one hmaxd).2 (le_maxD h0d)
  have ht1 : matrix_time X tl i j / maxD (matrix_time X tl) ≤ 1 :=
    (div_le_one hmaxt).2 (le_maxD h0t)
  linarith

lemma pipeline_some {n : ℕ} (geo : ℚ × ℚ → ℚ × ℚ → ℚ)
    (X : Fin n → Obs) (tl : ℤ) (dl : ℚ) (i0 : Fin n)
    (hmaxd : maxD (matrix_dist geo X dl) ≠ 0)
    (hmaxt : maxD (matrix_time X tl) ≠ 0) :
    cluster_records_model geo X tl dl =
      some (fun i => dbscan_labels (combinedQ geo X tl dl) 500 1 i,
        fun i => dbscan_labels (combinedQ geo X tl dl) 500 2 i) := by
  have hnum : ∀ i j, (((normMatrix (matrix_dist geo X dl)
      (maxD (matrix_dist geo X dl)) i j).add
      (normMatrix (matrix_time X tl) (maxD (matrix_time X tl)) i j)).isNum)
      = true :=
    totalEntry_isNum (matrix_dist_symm geo X dl) (matrix_time_symm X tl)
      hmaxd hmaxt
  unfold cluster_records_model
  rw [total_distance_eq geo X tl dl i0]
  show (match matToQ (fun i j =>
      (normMatrix (matrix_dist geo X dl) (maxD (matrix_dist geo X dl)) i j).add
      (normMatrix (matrix_time X tl) (maxD (matrix_time X tl)) i j)) with
    | none => none
    | some Tq => some (fun i => dbscan_labels Tq 500 1 i,
        fun i => dbscan_labels Tq 500 2 i)) = _
  rw [matToQ_eq_some hnum]
  rfl

lemma pipeline_inv {n : ℕ} {geo : ℚ × ℚ → ℚ × ℚ → ℚ}
    {X : Fin n → Obs} {tl : ℤ} {dl : ℚ}
    {L : (Fin n → ℤ) × (Fin n → ℤ)}
    (hL : cluster_records_model geo X tl dl = some L) :
    (∀ i j, ((normMatrix (matrix_dist geo X dl)
        (maxD (matrix_dist geo X dl)) i j).add
        (normMatrix (matrix_time X tl) (maxD (matrix_time X tl)) i j)).isNum
        = true) ∧
    L = (fun i => dbscan_labels (combinedQ geo X tl dl) 500 1 i,
      fun i => dbscan_labels (combinedQ geo X tl dl) 500 2 i) := by
  unfold cluster_records_model at hL
  cases htot : total_distance geo X tl dl with
  | none => rw [htot] at hL; cases hL
  | some T =>
    rw [htot] at hL
    have hT : T = fun i j =>
        (normMatrix (matrix_dist geo X dl) (maxD (matrix_dist geo X dl)) i j).add
        (normMatrix (matrix_time X tl) (maxD (matrix_time X tl)) i j) := by
      unfold total_distance calculate_normalized_matrices at htot
      cases hmd : max_in_range (matrix_dist geo X dl) with
      | none => rw [hmd] at htot; cases htot
      | some maxd =>
        cases hmt : max_in_range (matrix_time X tl) with
        | none => rw [hmd, hmt] at htot; cases htot
        | some maxt =>
          rw [hmd, hmt] at htot
          have hd : maxD (matrix_dist geo X dl) = maxd := by
            unfold maxD; rw [hmd]; rfl
          have ht : maxD (matrix_time X tl) = maxt := by
            unfold maxD; rw [hmt]; rfl
          rw [hd, ht]
          exact (Option.some_injective _ htot).symm
    subst hT
    have hL2 : (match matToQ (fun i j =>
        (normMatrix (matrix_dist geo X dl) (maxD (matrix_dist geo X dl)) i j).add
        (normMatrix (matrix_time X tl) (maxD (matrix_time X tl)) i j)) with
      | none => none
      | some Tq => some (fun i => dbscan_labels Tq 500 1 i,
          fun i => dbscan_labels Tq 500 2 i)) = some L := hL
    by_cases hnum : ∀ i j, (((normMatrix (matrix_dist geo X dl)
        (maxD (matrix_dist geo X dl)) i j).add
        (normMatrix (matrix_time X tl) (maxD (matrix_time X tl)) i j)).isNum)
        = true
    · refine ⟨hnum, ?_⟩
      rw [matToQ_eq_some hnum] at hL2
      exact (Option.some_injective _ hL2).symm
    · unfold matToQ at hL2
      rw [if_neg hnum] at hL2
      exact Option.noConfusion hL2

lemma labels1_nonneg {n : ℕ} {d : Fin n → Fin n → ℚ} {eps : ℚ}
    {i : Fin n} (hdiag : d i i ≤ eps) : 0 ≤ dbscan_labels d eps 1 i := by
  rw [dbscan_labels_core (isCore_one hdiag)]
  exact Int.natCast_nonneg _

lemma labels1_chain {n : ℕ} {d : Fin n → Fin n → ℚ} {eps : ℚ}
    (hd : ∀ i j, d i j = d j i) (hdiag : ∀ k, d k k ≤ eps)
    {A B C : Fin n} (hAB : d A B ≤ eps) (hBC : d B C ≤ eps) :
    dbscan_labels d eps 1 A = dbscan_labels d eps 1 C := by
  have hB : B ∈ reachSet (coreAdj d eps 1) A :=
    reachSet_closed (mem_reachSet_self _ A)
      (coreAdj_one_true (hdiag A) (hdiag B) hAB)
  have hC : C ∈ reachSet (coreAdj d eps 1) A :=
    reachSet_closed hB (coreAdj_one_true (hdiag B) (hdiag C) hBC)
  rw [dbscan_labels_core (isCore_one (hdiag A)),
    dbscan_labels_core (isCore_one (hdiag C))]
  exact congrArg _ (clusterRep_eq_of_mem hd hC)

lemma dneighbors_singleton {n : ℕ} {d : Fin n → Fin n → ℚ} {eps : ℚ}
    {i : Fin n} (hdiag : d i i ≤ eps)
    (hiso : ∀ j, j ≠ i → ¬ d i j ≤ eps) : dneighbors d eps i = {i} := by
  ext j
  unfold dneighbors
  rw [Finset.mem_filter, Finset.mem_singleton]
  constructor
  · rintro ⟨-, hle⟩
    by_contra hji
    exact hiso j hji hle
  · rintro rfl
    exact ⟨Finset.mem_univ _, hdiag⟩

lemma isCore2_false {n : ℕ} {d : Fin n → Fin n → ℚ} {eps : ℚ}
    {i : Fin n} (hdiag : d i i ≤ eps)
    (hiso : ∀ j, j ≠ i → ¬ d i j ≤ eps) : isCore d eps 2 i = false := by
  unfold isCore
  apply decide_eq_false
  rw [dneighbors_singleton hdiag hiso, Finset.card_singleton]
  omega

lemma labels2_noise_isolated {n : ℕ} {d : Fin n → Fin n → ℚ} {eps : ℚ}
    {i : Fin n} (hdiag : d i i ≤ eps)
    (hiso : ∀ j, j ≠ i → ¬ d i j ≤ eps) : dbscan_labels d eps 2 i = -1 := by
  apply dbscan_labels_noise (isCore2_false hdiag hiso)
  intro j h
  by_cases hj : j = i
  · subst hj
    rw [isCore2_false hdiag hiso] at h
    exact Bool.false_ne_true h.1
  · exact hiso j hj h.2

lemma labels1_isolated {n : ℕ} {d : Fin n → Fin n → ℚ} {eps : ℚ}
    (hd : ∀ i j, d i j = d j i) (hdiag : ∀ k, d k k ≤ eps) {i : Fin n}
    (hiso : ∀ j, j ≠ i → ¬ d i j ≤ eps) :
    dbscan_labels d eps 1 i = (i.val : ℤ) ∧
    ∀ j, j ≠ i → dbscan_labels d eps 1 j ≠ dbscan_labels d eps 1 i := by
  have hadj : ∀ j, j ≠ i → coreAdj d eps 1 i j = false := by
    intro j hj
    unfold coreAdj
    rw [decide_eq_false (hiso j hj), Bool.and_false]
  have hrep : clusterRep d eps 1 i = i.val := clusterRep_isolated hadj
  refine ⟨?_, ?_⟩
  · rw [dbscan_labels_core (isCore_one (hdiag i)), hrep]
  · intro j hj
    rw [dbscan_labels_core (isCore_one (hdiag j)),
      dbscan_labels_core (isCore_one (hdiag i)), hrep]
    intro hcontra
    have hval : clusterRep d eps 1 j = i.val := by exact_mod_cast hcontra
    unfold clusterRep at hval
    have hmem : (reachSet (coreAdj d eps 1) j).min'
        ⟨j, mem_reachSet_self (coreAdj d eps 1) j⟩ ∈
        reachSet (coreAdj d eps 1) j := Finset.min'_mem _ _
    have hmin_eq : (reachSet (coreAdj d eps 1) j).min'
        ⟨j, mem_reachSet_self (coreAdj d eps 1) j⟩ = i :=
      Fin.val_injective hval
    rw [hmin_eq] at hmem
    have hji : j ∈ reachSet (coreAdj d eps 1) i :=
      mem_reachSet_symm (coreAdj_symm hd) hmem
    rw [reachSet_singleton hadj] at hji
    exact hj (Finset.mem_singleton.1 hji)

/-- Concrete stand-in for the geodesic metric: distance along a single
meridian, measured by latitude difference (realisable by actual
coordinates, e.g. 1 unit ≈ 111 km of latitude; the claims' concrete
scenarios all place observations on one meridian). -/
def geoLine : ℚ × ℚ → ℚ × ℚ → ℚ := fun p q => |p.1 - q.1|

lemma geoLine_nonneg : ∀ p q, 0 ≤ geoLine p q := fun _ _ => abs_nonneg _

lemma geoLine_symm : ∀ p q, geoLine p q = geoLine q p := fun _ _ =>
  abs_sub_comm _ _

/-- The spec's worked example: three observations at identical
coordinates on days 0, 5 and 40. -/
def Xtriple : Fin 3 → Obs := ![⟨0, 0, 0⟩, ⟨0, 0, 5⟩, ⟨0, 0, 40⟩]

/-- Two observations 10 km apart on the same day. -/
def XfarSameDay : Fin 2 → Obs := ![⟨0, 0, 0⟩, ⟨10, 0, 0⟩]

/-- Two observations far apart in space, close in time. -/
def XdegSpace : Fin 2 → Obs := ![⟨0, 0, 0⟩, ⟨50, 0, 3⟩]

/-- Two observations far apart on both axes. -/
def Xfar : Fin 2 → Obs := ![⟨0, 0, 0⟩, ⟨50, 0, 500⟩]

/-- A chain: consecutive pairs within 1 km and 30 days, endpoints
1.8 km apart. -/
def Xchain : Fin 3 → Obs := ![⟨0, 0, 0⟩, ⟨9/10, 0, 1⟩, ⟨9/5, 0, 2⟩]

/-- The same chain with all three observations on one day. -/
def XchainSameDay : Fin 3 → Obs := ![⟨0, 0, 0⟩, ⟨9/10, 0, 0⟩, ⟨9/5, 0, 0⟩]

/-- Two nearby observations plus one isolated observation. -/
def Xiso : Fin 3 → Obs := ![⟨0, 0, 0⟩, ⟨9/10, 0, 1⟩, ⟨50, 0, 500⟩]

/-- Two observations at identical coordinates on the same day plus one
isolated observation. -/
def XisoDup : Fin 3 → Obs := ![⟨0, 0, 0⟩, ⟨0, 0, 0⟩, ⟨50, 0, 500⟩]

/-- Three observations: the pair (0,1) is out of time range, pairs
(0,2) and (1,2)-in-space keep both axis maxima positive. -/
def XmixW : Fin 3 → Obs := ![⟨0, 0, 0⟩, ⟨1/2, 0, 40⟩, ⟨0, 0, 1⟩]

lemma within_distance_range {geo : ℚ × ℚ → ℚ × ℚ → ℚ}
    (hg : ∀ p q, 0 ≤ geo p q) (p1 p2 : Obs) (dl : ℚ) :
    (0 ≤ within_distance_limit geo p1 p2 dl ∧
      within_distance_limit geo p1 p2 dl ≤ dl) ∨
    within_distance_limit geo p1 p2 dl = -1 := by
  unfold within_distance_limit
  by_cases h : geo (p1.r_lat, p1.r_long) (p2.r_lat, p2.r_long) ≤ dl
  · left; rw [if_pos h]; exact ⟨hg _ _, h⟩
  · right; rw [if_neg h]

lemma within_time_range (d1 d2 : Obs) (tl : ℤ) :
    (0 ≤ within_time_limit d1 d2 tl ∧
      within_time_limit d1 d2 tl ≤ (tl : ℚ)) ∨
    within_time_limit d1 d2 tl = -1 := by
  unfold within_time_limit
  by_cases h : |d1.r_data - d2.r_data| ≤ tl
  · left
    rw [if_pos h]
    constructor
    · exact_mod_cast abs_nonneg _
    · exact_mod_cast h
  · right; rw [if_neg h]

lemma raw_out_of_not_reachable {n : ℕ} {geo : ℚ × ℚ → ℚ × ℚ → ℚ}
    {X : Fin n → Obs} {tl : ℤ} {dl : ℚ}
    (hgs : ∀ p q, geo p q = geo q p) {i j : Fin n} (hij : i ≠ j)
    (hnr : ¬ directly_reachable geo X tl dl i j) :
    matrix_dist geo X dl i j < 0 ∨ matrix_time X tl i j < 0 := by
  unfold directly_reachable at hnr
  rcases not_and_or.1 hnr with h | h
  · left; rw [matrix_dist_out hgs hij (not_le.1 h)]; norm_num
  · right; rw [matrix_time_out hij (not_le.1 h)]; norm_num

lemma combinedQ_le_of_reachable {n : ℕ} {geo : ℚ × ℚ → ℚ × ℚ → ℚ}
    {X : Fin n → Obs} {tl : ℤ} {dl : ℚ}
    (hg : ∀ p q, 0 ≤ geo p q) (hgs : ∀ p q, geo p q = geo q p)
    (hmaxd : 0 < maxD (matrix_dist geo X dl))
    (hmaxt : 0 < maxD (matrix_time X tl)) {i j : Fin n}
    (hr : directly_reachable geo X tl dl i j) :
    combinedQ geo X tl dl i j ≤ 500 := by
  by_cases hij : i = j
  · subst hij; rw [combinedQ_diag]; norm_num
  · have h0d : 0 ≤ matrix_dist geo X dl i j := by
      rw [matrix_dist_in hgs hij hr.1]; exact hg _ _
    have h0t : 0 ≤ matrix_time X tl i j := by
      rw [matrix_time_in hij hr.2]
      exact_mod_cast abs_nonneg _
    linarith [combinedQ_in_le hmaxd hmaxt hij h0d h0t]

lemma toQ_add_num {a b : RVal} (ha : a.isNum = true) (hb : b.isNum = true) :
    (a.add b).toQ = a.toQ + b.toQ := by
  cases a <;> cases b <;> simp_all [RVal.add, RVal.isNum, RVal.toQ]

lemma normEntry_toQ_nonneg {x mx : ℚ} (hmx0 : 0 ≤ mx)
    (h : (normEntry x mx).isNum = true) : 0 ≤ (normEntry x mx).toQ := by
  unfold normEntry at h ⊢
  by_cases hx : x < 0
  · rw [if_pos hx]; norm_num [RVal.toQ]
  · rw [if_neg hx] at h ⊢
    have hmx := ndiv_isNum h
    unfold ndiv
    rw [if_neg hmx]
    show 0 ≤ x / mx
    exact div_nonneg (not_lt.1 hx) hmx0

lemma combinedQ_out_ge_isNum {n : ℕ} {geo : ℚ × ℚ → ℚ × ℚ → ℚ}
    {X : Fin n → Obs} {tl : ℤ} {dl : ℚ}
    (hnum : ∀ i j, ((normMatrix (matrix_dist geo X dl)
      (maxD (matrix_dist geo X dl)) i j).add
      (normMatrix (matrix_time X tl) (maxD (matrix_time X tl)) i j)).isNum
      = true)
    {i j : Fin n} (hij : i ≠ j)
    (hout : matrix_dist geo X dl i j < 0 ∨ matrix_time X tl i j < 0) :
    99999 ≤ combinedQ geo X tl dl i j := by
  have hmaxd0 : 0 ≤ maxD (matrix_dist geo X dl) :=
    maxD_nonneg (inRange_nonempty i (by rw [matrix_dist_diag]))
  have hmaxt0 : 0 ≤ maxD (matrix_time X tl) :=
    maxD_nonneg (inRange_nonempty i (by rw [matrix_time_diag]))
  have hnd : normMatrix (matrix_dist geo X dl)
      (maxD (matrix_dist geo X dl)) i j =
      normEntry (matrix_dist geo X dl i j) (maxD (matrix_dist geo X dl)) :=
    normMatrix_apply_ne _ (matrix_dist_symm geo X dl) hij
  have hnt : normMatrix (matrix_time X tl) (maxD (matrix_time X tl)) i j =
      normEntry (matrix_time X tl i j) (maxD (matrix_time X tl)) :=
    normMatrix_apply_ne _ (matrix_time_symm X tl) hij
  have hn := hnum i j
  rw [hnd, hnt] at hn
  obtain ⟨hn1, hn2⟩ := isNum_add hn
  unfold combinedQ
  rw [hnd, hnt, toQ_add_num hn1 hn2]
  have ht1 := normEntry_toQ_nonneg hmaxd0 hn1
  have ht2 := normEntry_toQ_nonneg hmaxt0 hn2
  rcases hout with h | h
  · rw [normEntry_neg h]
    have h99 : (RVal.num 99999).toQ = 99999 := rfl
    rw [h99]
    linarith
  · rw [normEntry_neg h]
    have h99 : (RVal.num 99999).toQ = 99999 := rfl
    rw [h99]
    linarith

lemma calcNorm_inv {n : ℕ} {Md Mt : Fin n → Fin n → ℚ}
    {p : (Fin n → Fin n → RVal) × (Fin n → Fin n → RVal)}
    (h : calculate_normalized_matrices Md Mt = some p) :
    p = (normMatrix Md (maxD Md), normMatrix Mt (maxD Mt)) := by
  unfold calculate_normalized_matrices at h
  cases hmd : max_in_range Md with
  | none => rw [hmd] at h; cases h
  | some maxd =>
    cases hmt : max_in_range Mt with
    | none => rw [hmd, hmt] at h; cases h
    | some maxt =>
      rw [hmd, hmt] at h
      have hd : maxD Md = maxd := by unfold maxD; rw [hmd]; rfl
      have ht : maxD Mt = maxt := by unfold maxD; rw [hmt]; rfl
      rw [hd, ht]
      exact (Option.some_injective _ h).symm

/-- One row of the optimizer's input table, restricted to the columns
the objective reads: the seven alert features and the `morto` weight
column (which is also the last alert feature). -/
structure RowData where
  num_reg : ℚ
  intervalo : ℚ
  freq_num_reg : ℚ
  freq_a_quant : ℚ
  extensao : ℚ
  perc_mortos : ℚ
  morto : ℚ
deriving DecidableEq, Repr

/-- The `alert_cols` selection of a row, in the source's fixed order. -/
def alertCols (r : RowData) : Fin 7 → ℚ :=
  ![r.num_reg, r.intervalo, r.freq_num_reg, r.freq_a_quant, r.extensao,
    r.perc_mortos, r.morto]

/-- `np.dot(data[alert_cols], weights)` for one row. -/
def alert_index_row (weights : Fin 7 → ℚ) (r : RowData) : ℚ :=
  ∑ k, alertCols r k * weights k

/-- `np.average(xs, weights=ws)`: the weighted mean `Σ xᵢwᵢ / Σ wᵢ`. -/
def wavg (xs ws : List ℚ) : ℚ :=
  (List.zipWith (· * ·) xs ws).sum / ws.sum

/-- `np.var(xs)`: the population variance, mean squared deviation. -/
def lvar (xs : List ℚ) : ℚ :=
  ((xs.map (fun x => (x - xs.sum / (xs.length : ℚ)) ^ 2)).sum) /
    (xs.length : ℚ)

/-- Source `objective_function(weights, data, alpha)`: alert index per
cluster, death-weighted mean `f1`, variance `f2`, then the negated
scalarization `-(alpha*f1 - (1-alpha)*f2)` handed to the minimizer. -/
def objective_function (weights : Fin 7 → ℚ) (data : List RowData)
    (alpha : ℚ) : ℚ :=
  let ai := data.map (alert_index_row weights)
  let f1 := wavg ai (data.map (fun r => r.morto))
  let f2 := lvar ai
  let obj := alpha * f1 - (1 - alpha) * f2
  Neg.neg obj

/-- Source `calculate_objective_values(weights, data)`: the same two
objectives, recomputed in a separate function and returned as a pair
for reporting. -/
def calculate_objective_values (weights : Fin 7 → ℚ)
    (data : List RowData) : ℚ × ℚ :=
  let ai := data.map (alert_index_row weights)
  (wavg ai (data.map (fun r => r.morto)), lvar ai)

/-- Result object of one `scipy.optimize.minimize` call, as far as the
script reads it; the SLSQP solver itself is an external library and is
abstracted to an oracle `ℚ → SolverResult` indexed by `alpha`. -/
structure SolverResult where
  success : Bool
  x : Fin 7 → ℚ
  fval : ℚ
  message : String

/-- One entry of the `results` dictionary.  `weights` and
`objective_value` are `None` for a non-converged solve; `message` is
absent (`none`) exactly when the source omitted the key. -/
structure SolRecord where
  success : Bool
  weights : Option (Fin 7 → ℚ)
  objective1 : ℚ
  objective2 : ℚ
  objective_value : Option ℚ
  message : Option String

/-- The `alpha` grid `np.arange(0, 1.1, 0.1)`: eleven values
`0, 0.1, ..., 1.0` (the float endpoint computation yields exactly 11
elements). -/
def alphas : List ℚ :=
  [0, 1/10, 2/10, 3/10, 4/10, 5/10, 6/10, 7/10, 8/10, 9/10, 1]

/-- `initial_weights = np.ones(7) / 7`. -/
def uniform_weights : Fin 7 → ℚ := fun _ => 1 / 7

/-- The record stored by the optimization loop for one `alpha`. -/
def loopRecord (solver : ℚ → SolverResult) (data : List RowData)
    (a : ℚ) : SolRecord :=
  let r := solver a
  let obj := calculate_objective_values r.x data
  { success := r.success
    weights := if r.success then some r.x else none
    objective1 := obj.1
    objective2 := obj.2
    objective_value := if r.success then some r.fval else none
    message := some r.message }

/-- The baseline record appended after the loop: uniform weights, no
optimization; the source stores the string literal for the flag and
omits the `message` key. -/
def baselineRecord (data : List RowData) : SolRecord :=
  let obj := calculate_objective_values uniform_weights data
  { success := true
    weights := some uniform_weights
    objective1 := obj.1
    objective2 := obj.2
    objective_value := some (1/2 * obj.1 - 1/2 * obj.2)
    message := none }

/-- The `results` dictionary of the `__main__` block, keyed by the
running `solution` counter, hence a list in loop order: one record per
`alpha`, then the baseline. -/
def run_optimization (solver : ℚ → SolverResult) (data : List RowData) :
    List SolRecord :=
  alphas.map (loopRecord solver data) ++ [baselineRecord data]

/-- Solver oracle that never converges. -/
def failSolver : ℚ → SolverResult :=
  fun _ => ⟨false, fun _ => 0, 0, "Iteration limit reached"⟩

/-- Solver oracle that always converges to the uniform vector. -/
def okSolver : ℚ → SolverResult :=
  fun _ => ⟨true, uniform_weights, 0, "Optimization terminated successfully"⟩

/-- C1 (amended): for a pair of distinct observations out of range on
one axis, and provided additionally that both axis in-range maxima are
positive (ruling out numpy's silent `0/0 = nan` during normalization),
the combined matrix is produced, its entry at the pair is at least
99999, and the pair is never directly reachable in either DBSCAN pass
(its combined entry is not `≤ eps = 500`, so it is in no
`eps`-neighbourhood). -/
theorem C1_amended {n : ℕ} (geo : ℚ × ℚ → ℚ × ℚ → ℚ) (X : Fin n → Obs)
    (tl : ℤ) (dl : ℚ)
    (hg : ∀ p q, 0 ≤ geo p q) (hgs : ∀ p q, geo p q = geo q p)
    (hmaxd : 0 < maxD (matrix_dist geo X dl))
    (hmaxt : 0 < maxD (matrix_time X tl))
    (i j : Fin n) (hij : i ≠ j)
    (hout : dl < geo ((X i).r_lat, (X i).r_long) ((X j).r_lat, (X j).r_long)
      ∨ tl < |(X i).r_data - (X j).r_data|) :
    (total_distance geo X tl dl).isSome = true ∧
    ∀ T, total_distance geo X tl dl = some T →
      RVal.le (RVal.num 99999) (T i j) = true ∧
      RVal.le (T i j) (RVal.num 500) = false := by
  have htot := total_distance_eq geo X tl dl i
  have hvout : matrix_dist geo X dl i j < 0 ∨ matrix_time X tl i j < 0 := by
    rcases hout with h | h
    · left; rw [matrix_dist_out hgs hij h]; norm_num
    · right; rw [matrix_time_out hij h]; norm_num
  have h1 := @normEntry_val_nonneg (matrix_dist geo X dl i j) _ hmaxd
  have h2 := @normEntry_val_nonneg (matrix_time X tl i j) _ hmaxt
  have hV : 99999 ≤
      (if matrix_dist geo X dl i j < 0 then (99999 : ℚ)
        else matrix_dist geo X dl i j / maxD (matrix_dist geo X dl)) +
      (if matrix_time X tl i j < 0 then (99999 : ℚ)
        else matrix_time X tl i j / maxD (matrix_time X tl)) := by
    rcases hvout with h | h
    · rw [if_pos h]; linarith
    · rw [if_pos h]; linarith
  constructor
  · rw [htot]; rfl
  · intro T hT
    rw [htot] at hT
    have hTeq := Option.some_injective _ hT
    subst hTeq
    have hen : (fun i j =>
        (normMatrix (matrix_dist geo X dl) (maxD (matrix_dist geo X dl)) i j).add
        (normMatrix (matrix_time X tl) (maxD (matrix_time X tl)) i j)) i j =
        RVal.num
          ((if matrix_dist geo X dl i j < 0 then 99999
            else matrix_dist geo X dl i j / maxD (matrix_dist geo X dl)) +
          (if matrix_time X tl i j < 0 then 99999
            else matrix_time X tl i j / maxD (matrix_time X tl))) :=
      totalEntry_ne (matrix_dist_symm geo X dl) (matrix_time_symm X tl)
        (ne_of_gt hmaxd) (ne_of_gt hmaxt) hij
    rw [hen]
    exact ⟨RVal.le_num.2 hV, RVal.le_num_false.2 (by linarith)⟩

unseal Rat.mul Rat.add Rat.sub Rat.inv in
/-- C1 (counterexample): two observations 10 km apart (limit 1 km) on
the same day (limit 30 days).  The pair exceeds the distance limit, yet
its combined entry is `nan` (the in-range time values are all zero, so
the time maximum is 0 and numpy computes `0/0`), and `99999 ≤ nan` is
false — the claimed bound fails. -/
theorem C1_counterexample :
    (1 : ℚ) < geoLine ((XfarSameDay 0).r_lat, (XfarSameDay 0).r_long)
      ((XfarSameDay 1).r_lat, (XfarSameDay 1).r_long) ∧
    ((total_distance geoLine XfarSameDay 30 1).map
      (fun T => T 0 1)) = some RVal.nan ∧
    ((total_distance geoLine XfarSameDay 30 1).map
      (fun T => RVal.le (RVal.num 99999) (T 0 1))) = some false := by
  refine ⟨by decide, by decide, by decide⟩

unseal Rat.mul Rat.add Rat.sub Rat.inv in
/-- C1 (witness): a concrete three-observation input with both maxima
positive and the pair (0,1) out of time range. -/
theorem C1_witness :
    (total_distance geoLine XmixW 30 1).isSome = true ∧
    RVal.le (RVal.num 99999)
      (((total_distance geoLine XmixW 30 1).getD (fun _ _ => RVal.nan)) 0 1)
      = true ∧
    RVal.le
      (((total_distance geoLine XmixW 30 1).getD (fun _ _ => RVal.nan)) 0 1)
      (RVal.num 500) = false := by
  have h := C1_amended geoLine XmixW 30 1 geoLine_nonneg geoLine_symm
    (by decide) (by decide) 0 1 (by decide) (Or.inr (by decide))
  obtain ⟨hsome, himp⟩ := h
  rcases Option.isSome_iff_exists.1 hsome with ⟨T, hT⟩
  have hc := himp T hT
  refine ⟨hsome, ?_, ?_⟩
  · rw [hT, Option.getD_some]; exact hc.1
  · rw [hT, Option.getD_some]; exact hc.2

unseal Rat.mul Rat.add Rat.sub Rat.inv in
/-- C2: the spec's worked example — three observations at identical
coordinates on days 0, 5 and 40 with `time_limit = 30`,
`distance_limit = 1`.  The expected labels are never produced: all
spatial pairs are in range with distance 0, so the spatial maximum is 0,
normalization computes `0/0 = nan` (the combined entry at (0,1) is
`nan`), DBSCAN rejects the non-finite matrix and the run aborts
(`none`). -/
theorem C2_example_crashes :
    ((Xtriple 1).r_lat, (Xtriple 1).r_long) =
      ((Xtriple 0).r_lat, (Xtriple 0).r_long) ∧
    ((Xtriple 2).r_lat, (Xtriple 2).r_long) =
      ((Xtriple 0).r_lat, (Xtriple 0).r_long) ∧
    (Xtriple 0).r_data = 0 ∧ (Xtriple 1).r_data = 5 ∧
    (Xtriple 2).r_data = 40 ∧
    ((total_distance geoLine Xtriple 30 1).map (fun T => T 0 1)) =
      some RVal.nan ∧
    (cluster_records_model geoLine Xtriple 30 1).isNone = true := by
  refine ⟨by decide, by decide, by decide, by decide, by decide,
    by decide, by decide⟩

/-- C3 (amended): when every off-diagonal entry of an axis's raw matrix
is the sentinel `-1`, `np.max` over the entries `≥ 0` still sees the
zero diagonal, so the maximum is defined and equals 0; normalization
does not fail and produces, for that axis, the sentinel `99999` at every
off-diagonal position and 0 on the diagonal — in particular no division
happens on that axis and no NaN is emitted there. -/
theorem C3_amended {n : ℕ} (Md Mt : Fin n → Fin n → ℚ)
    (hd0 : ∀ i, Md i i = 0) (ht0 : ∀ i, Mt i i = 0)
    (hdeg : ∀ i j, i ≠ j → Md i j = -1) (i0 : Fin n) :
    maxD Md = 0 ∧
    (calculate_normalized_matrices Md Mt).isSome = true ∧
    ∀ p, calculate_normalized_matrices Md Mt = some p →
      ∀ i j, p.1 i j = if i = j then RVal.num 0 else RVal.num 99999 := by
  have hne1 : (inRangeEntries Md).Nonempty :=
    inRange_nonempty i0 (by rw [hd0])
  have hne2 : (inRangeEntries Mt).Nonempty :=
    inRange_nonempty i0 (by rw [ht0])
  have hmax0 : maxD Md = 0 := by
    refine le_antisymm ?_ ?_
    · rw [maxD_eq hne1]
      refine Finset.sup'_le hne1 _ ?_
      intro b hb
      have hb0 : 0 ≤ Md b.1 b.2 := by
        simpa [inRangeEntries] using hb
      by_cases hbd : b.1 = b.2
      · rw [← hbd] at hb0 ⊢
        rw [hd0]
      · rw [hdeg b.1 b.2 hbd] at hb0
        norm_num at hb0
    · exact maxD_nonneg hne1
  refine ⟨hmax0, ?_, ?_⟩
  · unfold calculate_normalized_matrices
    rw [max_in_range_eq hne1, max_in_range_eq hne2]
    rfl
  · intro p hp
    have hpe := calcNorm_inv hp
    subst hpe
    intro i j
    by_cases hij : i = j
    · subst hij
      rw [if_pos rfl]
      exact normMatrix_diag Md (maxD Md) i
    · rw [if_neg hij]
      have hsd : ∀ a b, Md a b = Md b a := by
        intro a b
        by_cases hab : a = b
        · subst hab; rfl
        · rw [hdeg a b hab, hdeg b a (Ne.symm hab)]
      show normMatrix Md (maxD Md) i j = RVal.num 99999
      rw [normMatrix_apply_ne _ hsd hij,
        normEntry_neg (by rw [hdeg i j hij]; norm_num)]

unseal Rat.mul Rat.add Rat.sub Rat.inv in
/-- C3 (counterexample): a two-observation input whose spatial axis has
every off-diagonal raw entry `-1` (both observations 50 km apart, limit
1 km).  Normalization succeeds — the run does not abort as the claim
requires. -/
theorem C3_counterexample :
    (∀ i j : Fin 2, i ≠ j → matrix_dist geoLine XdegSpace 1 i j = -1) ∧
    (calculate_normalized_matrices (matrix_dist geoLine XdegSpace 1)
      (matrix_time XdegSpace 30)).isSome = true := by
  refine ⟨by decide, by decide⟩

unseal Rat.mul Rat.add Rat.sub Rat.inv in
/-- C3 (witness): the amended statement evaluated on the same concrete
degenerate input. -/
theorem C3_witness :
    maxD (matrix_dist geoLine XdegSpace 1) = 0 ∧
    (calculate_normalized_matrices (matrix_dist geoLine XdegSpace 1)
      (matrix_time XdegSpace 30)).isSome = true ∧
    ((calculate_normalized_matrices (matrix_dist geoLine XdegSpace 1)
      (matrix_time XdegSpace 30)).getD
        (fun _ _ => RVal.nan, fun _ _ => RVal.nan)).1 0 1 =
      RVal.num 99999 := by
  have h := C3_amended (matrix_dist geoLine XdegSpace 1)
    (matrix_time XdegSpace 30) (by decide) (by decide) (by decide) 0
  obtain ⟨h0, hsome, hall⟩ := h
  rcases Option.isSome_iff_exists.1 hsome with ⟨p, hp⟩
  refine ⟨h0, hsome, ?_⟩
  rw [hp, Option.getD_some]
  rw [hall p hp 0 1]
  decide

/-- C4 (amended): chained connectivity of `Cluster1`, for any three
observations with A–B and B–C directly reachable but A–C not, provided
both axis in-range maxima are positive (ruling out numpy's `0/0 = nan`,
which would make DBSCAN reject the matrix and abort the run before any
label is assigned). -/
theorem C4_amended {n : ℕ} (geo : ℚ × ℚ → ℚ × ℚ → ℚ) (X : Fin n → Obs)
    (tl : ℤ) (dl : ℚ)
    (hg : ∀ p q, 0 ≤ geo p q) (hgs : ∀ p q, geo p q = geo q p)
    (hmaxd : 0 < maxD (matrix_dist geo X dl))
    (hmaxt : 0 < maxD (matrix_time X tl))
    (A B C : Fin n)
    (hAB : directly_reachable geo X tl dl A B)
    (hBC : directly_reachable geo X tl dl B C)
    (hAC : ¬ directly_reachable geo X tl dl A C) :
    (cluster_records_model geo X tl dl).isSome = true ∧
    ∀ L, cluster_records_model geo X tl dl = some L → L.1 A = L.1 C := by
  have hp := pipeline_some geo X tl dl A (ne_of_gt hmaxd) (ne_of_gt hmaxt)
  constructor
  · rw [hp]; rfl
  · intro L hL
    rw [hp] at hL
    have hLeq := Option.some_injective _ hL
    subst hLeq
    have hdiag : ∀ k, combinedQ geo X tl dl k k ≤ 500 := by
      intro k; rw [combinedQ_diag]; norm_num
    exact labels1_chain (combinedQ_symm geo X tl dl) hdiag
      (combinedQ_le_of_reachable hg hgs hmaxd hmaxt hAB)
      (combinedQ_le_of_reachable hg hgs hmaxd hmaxt hBC)

unseal Rat.mul Rat.add Rat.sub Rat.inv in
/-- C4 (counterexample): the chain 0–1–2 (0.9 km steps, endpoints
1.8 km apart) with all three observations on the same day.  The
premises of the claim hold, but every in-range time value is 0, the
time maximum is 0, normalization emits `0/0 = nan`, DBSCAN rejects the
matrix and the run aborts — no `Cluster1` labels exist, so 0 and 2 do
not receive the same label. -/
theorem C4_counterexample :
    directly_reachable geoLine XchainSameDay 30 1 0 1 ∧
    directly_reachable geoLine XchainSameDay 30 1 1 2 ∧
    ¬ directly_reachable geoLine XchainSameDay 30 1 0 2 ∧
    (cluster_records_model geoLine XchainSameDay 30 1).isNone = true := by
  refine ⟨by decide, by decide, by decide, by decide⟩

unseal Rat.mul Rat.add Rat.sub Rat.inv in
/-- C4 (witness): the same chain with distinct consecutive days, where
both maxima are positive and the amended claim applies. -/
theorem C4_witness :
    (cluster_records_model geoLine Xchain 30 1).isSome = true ∧
    ((cluster_records_model geoLine Xchain 30 1).getD
      (fun _ => 0, fun _ => 0)).1 0 =
    ((cluster_records_model geoLine Xchain 30 1).getD
      (fun _ => 0, fun _ => 0)).1 2 := by
  have h := C4_amended geoLine Xchain 30 1 geoLine_nonneg geoLine_symm
    (by decide) (by decide) 0 1 2 (by decide) (by decide) (by decide)
  obtain ⟨hsome, himp⟩ := h
  rcases Option.isSome_iff_exists.1 hsome with ⟨L, hL⟩
  refine ⟨hsome, ?_⟩
  rw [hL, Option.getD_some]
  exact himp L hL

/-- C5 (amended): an observation whose only directly-reachable
neighbour is itself gets the noise label `-1` in the `min_samples = 2`
pass and a non-negative label in the `min_samples = 1` pass, provided
both axis in-range maxima are positive (ruling out numpy's
`0/0 = nan`, which would abort the run before any label is
assigned). -/
theorem C5_amended {n : ℕ} (geo : ℚ × ℚ → ℚ × ℚ → ℚ) (X : Fin n → Obs)
    (tl : ℤ) (dl : ℚ)
    (hg : ∀ p q, 0 ≤ geo p q) (hgs : ∀ p q, geo p q = geo q p)
    (hmaxd : 0 < maxD (matrix_dist geo X dl))
    (hmaxt : 0 < maxD (matrix_time X tl))
    (i : Fin n)
    (hiso : ∀ j, j ≠ i → ¬ directly_reachable geo X tl dl i j) :
    (cluster_records_model geo X tl dl).isSome = true ∧
    ∀ L, cluster_records_model geo X tl dl = some L →
      L.2 i = -1 ∧ 0 ≤ L.1 i := by
  have hp := pipeline_some geo X tl dl i (ne_of_gt hmaxd) (ne_of_gt hmaxt)
  constructor
  · rw [hp]; rfl
  · intro L hL
    rw [hp] at hL
    have hLeq := Option.some_injective _ hL
    subst hLeq
    have hdiag : combinedQ geo X tl dl i i ≤ 500 := by
      rw [combinedQ_diag]; norm_num
    have hiso2 : ∀ j, j ≠ i → ¬ combinedQ geo X tl dl i j ≤ 500 := by
      intro j hj
      have hout := raw_out_of_not_reachable hgs (Ne.symm hj) (hiso j hj)
      have := combinedQ_out_ge hmaxd hmaxt (Ne.symm hj) hout
      linarith
    exact ⟨labels2_noise_isolated hdiag hiso2, labels1_nonneg hdiag⟩

unseal Rat.mul Rat.add Rat.sub Rat.inv in
/-- C5 (counterexample): observation 2 is isolated (50 km and 500 days
away from the others), but observations 0 and 1 coincide in space and
time, so both axis maxima are 0, normalization emits `0/0 = nan` and
the run aborts — observation 2 never receives the label `-1` (or any
label). -/
theorem C5_counterexample :
    (∀ j : Fin 3, j ≠ 2 → ¬ directly_reachable geoLine XisoDup 30 1 2 j) ∧
    (cluster_records_model geoLine XisoDup 30 1).isNone = true := by
  refine ⟨by decide, by decide⟩

unseal Rat.mul Rat.add Rat.sub Rat.inv in
/-- C5 (witness): observation 2 of `Xiso` is isolated, the other two
keep both maxima positive. -/
theorem C5_witness :
    (cluster_records_model geoLine Xiso 30 1).isSome = true ∧
    ((cluster_records_model geoLine Xiso 30 1).getD
      (fun _ => 0, fun _ => 0)).2 2 = -1 ∧
    0 ≤ ((cluster_records_model geoLine Xiso 30 1).getD
      (fun _ => 0, fun _ => 0)).1 2 := by
  have h := C5_amended geoLine Xiso 30 1 geoLine_nonneg geoLine_symm
    (by decide) (by decide) 2 (by decide)
  obtain ⟨hsome, himp⟩ := h
  rcases Option.isSome_iff_exists.1 hsome with ⟨L, hL⟩
  have hc := himp L hL
  refine ⟨hsome, ?_, ?_⟩
  · rw [hL, Option.getD_some]; exact hc.1
  · rw [hL, Option.getD_some]; exact hc.2

/-- C6: the raw matrices of `calculate_dist_time` are symmetric, have
zero diagonal, and every entry is either in `[0, limit]` or exactly
`-1` — for the spatial matrix against `distance_limit` and the temporal
matrix against `time_limit` (with the geodesic nonnegative and the
limits nonnegative, as distances and day counts are). -/
theorem C6_raw_matrix_props {n : ℕ} (geo : ℚ × ℚ → ℚ × ℚ → ℚ)
    (X : Fin n → Obs) (tl : ℤ) (dl : ℚ)
    (hg : ∀ p q, 0 ≤ geo p q) (hdl : 0 ≤ dl) (htl : 0 ≤ tl)
    (i j : Fin n) :
    (matrix_dist geo X dl i j = matrix_dist geo X dl j i ∧
      matrix_dist geo X dl i i = 0 ∧
      ((0 ≤ matrix_dist geo X dl i j ∧ matrix_dist geo X dl i j ≤ dl) ∨
        matrix_dist geo X dl i j = -1)) ∧
    (matrix_time X tl i j = matrix_time X tl j i ∧
      matrix_time X tl i i = 0 ∧
      ((0 ≤ matrix_time X tl i j ∧ matrix_time X tl i j ≤ (tl : ℚ)) ∨
        matrix_time X tl i j = -1)) := by
  refine ⟨⟨matrix_dist_symm geo X dl i j, matrix_dist_diag geo X dl i, ?_⟩,
    ⟨matrix_time_symm X tl i j, matrix_time_diag X tl i, ?_⟩⟩
  · unfold matrix_dist
    by_cases hij : i = j
    · rw [if_pos hij]
      left
      exact ⟨le_refl 0, hdl⟩
    · rw [if_neg hij]
      by_cases hlt : i < j
      · rw [if_pos hlt]
        exact within_distance_range hg (X i) (X j) dl
      · rw [if_neg hlt]
        exact within_distance_range hg (X j) (X i) dl
  · unfold matrix_time
    by_cases hij : i = j
    · rw [if_pos hij]
      left
      refine ⟨le_refl 0, ?_⟩
      exact_mod_cast htl
    · rw [if_neg hij]
      by_cases hlt : i < j
      · rw [if_pos hlt]
        exact within_time_range (X i) (X j) tl
      · rw [if_neg hlt]
        exact within_time_range (X j) (X i) tl

/-- C6 (witness): the property evaluated at the concrete off-diagonal
pair (0,1) of a two-observation input. -/
theorem C6_witness :
    (matrix_dist geoLine Xfar 1 0 1 = matrix_dist geoLine Xfar 1 1 0 ∧
      matrix_dist geoLine Xfar 1 0 0 = 0 ∧
      ((0 ≤ matrix_dist geoLine Xfar 1 0 1 ∧
        matrix_dist geoLine Xfar 1 0 1 ≤ 1) ∨
        matrix_dist geoLine Xfar 1 0 1 = -1)) ∧
    (matrix_time Xfar 30 0 1 = matrix_time Xfar 30 1 0 ∧
      matrix_time Xfar 30 0 0 = 0 ∧
      ((0 ≤ matrix_time Xfar 30 0 1 ∧ matrix_time Xfar 30 0 1 ≤ (30 : ℚ)) ∨
        matrix_time Xfar 30 0 1 = -1)) :=
  C6_raw_matrix_props geoLine Xfar 30 1 geoLine_nonneg (by norm_num)
    (by norm_num) 0 1

/-- C10: the diagonal of every produced matrix is exactly 0 — the raw
spatial and temporal matrices, both normalized matrices, and the
combined matrix — so every observation is within `eps = 500` of itself;
consequently, whenever the clustering stage produces labels, an
observation all of whose pairs are excluded by the limits receives its
own valid singleton cluster in the `min_samples = 1` pass (its own
non-negative label, shared with no other observation). -/
theorem C10_diagonals_self_cluster {n : ℕ} (geo : ℚ × ℚ → ℚ × ℚ → ℚ)
    (X : Fin n → Obs) (tl : ℤ) (dl : ℚ)
    (hg : ∀ p q, 0 ≤ geo p q) (hgs : ∀ p q, geo p q = geo q p) :
    (∀ i, matrix_dist geo X dl i i = 0) ∧
    (∀ i, matrix_time X tl i i = 0) ∧
    (∀ p, calculate_normalized_matrices (matrix_dist geo X dl)
        (matrix_time X tl) = some p →
      ∀ i, p.1 i i = RVal.num 0 ∧ p.2 i i = RVal.num 0) ∧
    (∀ T, total_distance geo X tl dl = some T →
      ∀ i, T i i = RVal.num 0 ∧
        RVal.le (T i i) (RVal.num 500) = true) ∧
    (∀ L, cluster_records_model geo X tl dl = some L →
      ∀ i, (∀ j, j ≠ i → ¬ directly_reachable geo X tl dl i j) →
        L.1 i = (i.val : ℤ) ∧ 0 ≤ L.1 i ∧
        (∀ j, j ≠ i → L.1 j ≠ L.1 i)) := by
  refine ⟨matrix_dist_diag geo X dl, matrix_time_diag X tl, ?_, ?_, ?_⟩
  · intro p hp i
    have hpe := calcNorm_inv hp
    subst hpe
    exact ⟨normMatrix_diag _ _ i, normMatrix_diag _ _ i⟩
  · intro T hT i
    unfold total_distance at hT
    cases hcn : calculate_normalized_matrices (matrix_dist geo X dl)
        (matrix_time X tl) with
    | none => rw [hcn] at hT; cases hT
    | some p =>
      rw [hcn] at hT
      have hTeq := Option.some_injective _ hT
      subst hTeq
      have hpe := calcNorm_inv hcn
      subst hpe
      have hd : (normMatrix (matrix_dist geo X dl)
          (maxD (matrix_dist geo X dl)) i i).add
          (normMatrix (matrix_time X tl) (maxD (matrix_time X tl)) i i) =
          RVal.num 0 := by
        rw [normMatrix_diag, normMatrix_diag, RVal.add_num]
        norm_num
      constructor
      · exact hd
      · show RVal.le ((normMatrix (matrix_dist geo X dl)
            (maxD (matrix_dist geo X dl)) i i).add
            (normMatrix (matrix_time X tl) (maxD (matrix_time X tl)) i i))
            (RVal.num 500) = true
        rw [hd]
        exact RVal.le_num.2 (by norm_num)
  · intro L hL i hiso
    obtain ⟨hnum, hLeq⟩ := pipeline_inv hL
    subst hLeq
    have hdiag : ∀ k, combinedQ geo X tl dl k k ≤ 500 := by
      intro k; rw [combinedQ_diag]; norm_num
    have hiso2 : ∀ j, j ≠ i → ¬ combinedQ geo X tl dl i j ≤ 500 := by
      intro j hj
      have hout := raw_out_of_not_reachable hgs (Ne.symm hj) (hiso j hj)
      have := combinedQ_out_ge_isNum hnum (Ne.symm hj) hout
      linarith
    obtain ⟨hown, hdistinct⟩ :=
      labels1_isolated (combinedQ_symm geo X tl dl) hdiag hiso2
    refine ⟨hown, ?_, hdistinct⟩
    show 0 ≤ dbscan_labels (combinedQ geo X tl dl) 500 1 i
    rw [hown]
    exact Int.natCast_nonneg _

unseal Rat.mul Rat.add Rat.sub Rat.inv in
/-- C10 (witness): a two-observation input whose pair is excluded on
both axes; observation 1 gets its own singleton Cluster1 label. -/
theorem C10_witness :
    matrix_dist geoLine Xfar 1 0 0 = 0 ∧
    matrix_time Xfar 30 0 0 = 0 ∧
    (cluster_records_model geoLine Xfar 30 1).isSome = true ∧
    ((cluster_records_model geoLine Xfar 30 1).getD
      (fun _ => 0, fun _ => 0)).1 1 = 1 ∧
    ((cluster_records_model geoLine Xfar 30 1).getD
      (fun _ => 0, fun _ => 0)).1 0 ≠
      ((cluster_records_model geoLine Xfar 30 1).getD
        (fun _ => 0, fun _ => 0)).1 1 := by
  have h := C10_diagonals_self_cluster geoLine Xfar 30 1 geoLine_nonneg
    geoLine_symm
  have hsome : (cluster_records_model geoLine Xfar 30 1).isSome = true := by
    decide
  rcases Option.isSome_iff_exists.1 hsome with ⟨L, hL⟩
  have h5 := h.2.2.2.2 L hL 1 (by decide)
  refine ⟨h.1 0, h.2.1 0, hsome, ?_, ?_⟩
  · rw [hL, Option.getD_some]
    exact h5.1
  · rw [hL, Option.getD_some]
    exact h5.2.2 0 (by decide)

/-- C7: for any alpha of the grid at which the solver reports
non-convergence, the loop still records an entry at that position
(the run is a total function producing all `alphas.length + 1`
records), carrying the failure flag and the solver's diagnostic
message; its `weights` field is `None` — in particular not a vector of
zeros. -/
theorem C7_failure_recorded (solver : ℚ → SolverResult)
    (data : List RowData) (k : ℕ) (hk : k < alphas.length)
    (hfail : (solver alphas[k]).success = false) :
    (run_optimization solver data).length = alphas.length + 1 ∧
    ∃ rec, (run_optimization solver data)[k]? = some rec ∧
      rec.success = false ∧
      rec.message = some (solver alphas[k]).message ∧
      rec.weights = none ∧
      rec.weights ≠ some (fun _ => (0 : ℚ)) := by
  constructor
  · unfold run_optimization
    rw [List.length_append, List.length_map, List.length_singleton]
  · refine ⟨loopRecord solver data alphas[k], ?_, ?_, rfl, ?_, ?_⟩
    · unfold run_optimization
      rw [List.getElem?_append_left (by rw [List.length_map]; exact hk),
        List.getElem?_map, List.getElem?_eq_getElem hk]
      rfl
    · show (solver alphas[k]).success = false
      exact hfail
    · show (if (solver alphas[k]).success then some (solver alphas[k]).x
        else none) = none
      rw [hfail]
      rfl
    · show (if (solver alphas[k]).success then some (solver alphas[k]).x
        else none) ≠ some (fun _ => (0 : ℚ))
      rw [hfail]
      simp

/-- C7 (witness): a never-converging solver oracle at the first grid
point. -/
theorem C7_witness :
    (run_optimization failSolver []).length = alphas.length + 1 ∧
    ((run_optimization failSolver [])[0]?).map
      (fun r => (r.success, r.message, r.weights.isNone)) =
      some (false, some "Iteration limit reached", true) := by
  obtain ⟨hlen, rec, hrec, hs, hm, hw, -⟩ :=
    C7_failure_recorded failSolver [] 0 (by decide) rfl
  refine ⟨hlen, ?_⟩
  rw [hrec]
  simp [hs, hm, hw]
  rfl

/-- C8 (amended): the optimizer's output is exactly one record per
alpha (11 alpha records) plus one final baseline record, 12 in total.
Every alpha record carries the solver's success flag and diagnostic
message, both objective values recomputed from the solver's vector, and
a weight vector only when the solve converged (`None` otherwise).  The
baseline record carries the uniform vector (1/7 in each of the 7
positions), both objective values computed from it without
optimization, and a success flag, but no solver message. -/
theorem C8_amended (solver : ℚ → SolverResult) (data : List RowData) :
    (run_optimization solver data).length = 12 ∧
    (∀ k, (hk : k < alphas.length) →
      (run_optimization solver data)[k]? =
        some (loopRecord solver data alphas[k]) ∧
      (loopRecord solver data alphas[k]).message =
        some (solver alphas[k]).message ∧
      (loopRecord solver data alphas[k]).success =
        (solver alphas[k]).success ∧
      (loopRecord solver data alphas[k]).objective1 =
        (calculate_objective_values (solver alphas[k]).x data).1 ∧
      (loopRecord solver data alphas[k]).objective2 =
        (calculate_objective_values (solver alphas[k]).x data).2 ∧
      (loopRecord solver data alphas[k]).weights =
        (if (solver alphas[k]).success then some (solver alphas[k]).x
          else none)) ∧
    (run_optimization solver data).getLast? = some (baselineRecord data) ∧
    (baselineRecord data).weights = some uniform_weights ∧
    (baselineRecord data).message = none ∧
    (baselineRecord data).success = true ∧
    (baselineRecord data).objective1 =
      (calculate_objective_values uniform_weights data).1 ∧
    (baselineRecord data).objective2 =
      (calculate_objective_values uniform_weights data).2 := by
  refine ⟨?_, ?_, ?_, rfl, rfl, rfl, rfl, rfl⟩
  · unfold run_optimization
    rw [List.length_append, List.length_map, List.length_singleton]
    rfl
  · intro k hk
    refine ⟨?_, rfl, rfl, rfl, rfl, rfl⟩
    unfold run_optimization
    rw [List.getElem?_append_left (by rw [List.length_map]; exact hk),
      List.getElem?_map, List.getElem?_eq_getElem hk]
    rfl
  · unfold run_optimization
    rw [List.getLast?_concat]

unseal Rat.mul Rat.add Rat.sub Rat.inv in
/-- C8 (counterexample): the claim requires every record — including
the baseline — to carry the solver message; running the loop with a
converging solver oracle yields 12 records where the last (baseline)
record has no message field. -/
theorem C8_counterexample :
    ((run_optimization okSolver []).map (fun r => r.message.isSome)) =
      [true, true, true, true, true, true, true, true, true, true, true,
        false] ∧
    ((run_optimization okSolver []).getLast?).map (fun r => r.message) =
      some none := by
  refine ⟨by decide, by decide⟩

/-- C8 (witness): the amended statement applied to a concrete solver
oracle and the first grid point. -/
theorem C8_witness :
    (run_optimization okSolver []).length = 12 ∧
    (run_optimization okSolver [])[0]? =
      some (loopRecord okSolver [] alphas[0]) ∧
    (loopRecord okSolver [] alphas[0]).message =
      some (okSolver alphas[0]).message ∧
    (run_optimization okSolver []).getLast? =
      some (baselineRecord []) ∧
    (baselineRecord ([] : List RowData)).message = none := by
  have h := C8_amended okSolver []
  have h2 := h.2.1 0 (by decide)
  exact ⟨h.1, h2.1, h2.2.1, h.2.2.1, h.2.2.2.2.1⟩

/-- C9: the scalar objective handed to the solver by
`objective_function` is exactly the negation of
`alpha * f1 - (1 - alpha) * f2` where `(f1, f2)` is the pair returned
by the separate reporting function `calculate_objective_values` on the
same weights and table — the two functions are equivalent computations
of the same two objectives. -/
theorem C9_objective_equivalence (w : Fin 7 → ℚ) (data : List RowData)
    (alpha : ℚ) :
    objective_function w data alpha =
      -(alpha * (calculate_objective_values w data).1 -
        (1 - alpha) * (calculate_objective_values w data).2) := rfl

end AlertSystem
